import Mathlib

/-!
Verification of the `Design` CSS compiler (`src/design.ts`, version 1.4) of the
jay-comps repository.

The compiler turns a JavaScript configuration object into stylesheet text.  We
embed it shallowly:

* JavaScript values appearing in a config are modelled by `CSSValue`
  (strings, numbers, booleans, `null`, arrays, nested objects).  Numbers are
  modelled as integers; every claim below concerns the textual pipeline, which
  is independent of float formatting.
* A config object is an association list `Config` in insertion order, matching
  `for..in` / `Object.entries` iteration over the identifier-style keys used
  by the library.  JavaScript property lookup is first-match lookup.
* Exceptions (`throw new Error(...)`) are modelled with `Except String`.
* `String.prototype.toLowerCase`, `endsWith`, `slice(0, -n)` and the regex
  `replace(/([a-z0-9])([A-Z])/g, '$1-$2')` are modelled character-exactly for
  the ASCII range used by the table keys.
-/

/-- `CSSValue` from design.ts: `string | number | boolean | null | Array | any`
(the `any` arm covers the nested config objects used for `media`/`keyframes`
and the keyframe step declarations). -/
inductive CSSValue where
  | str : String → CSSValue
  | num : Int → CSSValue
  | bool : Bool → CSSValue
  | null : CSSValue
  | arr : List CSSValue → CSSValue
  | obj : List (String × CSSValue) → CSSValue

/-- `CSSConfig = Record<string, CSSValue>`, in insertion order. -/
abbrev Config := List (String × CSSValue)

/-- JavaScript `key.endsWith(t)`. -/
def strEndsWith (s t : String) : Bool := t.data.isSuffixOf s.data

/-- JavaScript `s.slice(0, -n)` (for `0 < n ≤ s.length`; clamps at `""`). -/
def dropEnd (s : String) (n : Nat) : String := ⟨s.data.take (s.data.length - n)⟩

/-- JavaScript `s.toLowerCase()` (ASCII range; the compiler only lowercases
table keys and breakpoint markers, which are ASCII). -/
def jsToLowerCase (s : String) : String := ⟨s.data.map Char.toLower⟩

/-- `Array.prototype.join(sep)`. -/
def joinSep (sep : String) : List String → String
  | [] => ""
  | [x] => x
  | x :: y :: rest => x ++ sep ++ joinSep sep (y :: rest)

/-- The hyphen-insertion pass of `camelToKebab`:
`key.replace(/([a-z0-9])([A-Z])/g, '$1-$2')`.  The regex consumes two
characters per match, but since the two character classes are disjoint the
global replacement is exactly pairwise insertion. -/
def insertHyphens : List Char → List Char
  | [] => []
  | [c] => [c]
  | c1 :: c2 :: rest =>
    if (c1.isLower || c1.isDigit) && c2.isUpper then
      c1 :: '-' :: insertHyphens (c2 :: rest)
    else
      c1 :: insertHyphens (c2 :: rest)

/-- `camelToKebab` from design.ts: insert hyphens, then `.toLowerCase()`. -/
def camelToKebab (key : String) : String := ⟨(insertHyphens key.data).map Char.toLower⟩

/-- The `OPERATORS` table of `parseProperties`, in object-literal insertion
order (which is `Object.keys` iteration order). -/
def OPERATORS : List (String × String) :=
  [("Percent", "%"), ("Var", "var"), ("Url", "url"), ("Calc", "calc"),
   ("Em", "em"), ("Rem", "rem"), ("Vw", "vw"), ("Vh", "vh"), ("Vmin", "vmin"),
   ("Vmax", "vmax"), ("Ch", "ch"), ("Ex", "ex"), ("Pt", "pt"), ("Pc", "pc"),
   ("In", "in"), ("Cm", "cm"), ("Mm", "mm"), ("Fr", "fr"), ("S", "s"), ("Ms", "ms"),
   ("Deg", "deg"), ("Rad", "rad"), ("Grad", "grad"), ("Turn", "turn"),
   ("Dpi", "dpi"), ("Dpcm", "dpcm"), ("Dppx", "dppx"), ("Q", "q"),
   ("Hz", "Hz"), ("KHz", "kHz")]

/-- The `UNITLESS_PROPERTIES` list of `parseProperties`. -/
def UNITLESS_PROPERTIES : List String :=
  ["opacity", "z-index", "line-height", "font-weight",
   "flex", "order", "flex-grow", "flex-shrink", "grid-row",
   "grid-column", "column-count", "widows", "orphans", "tab-size"]

/-- The suffix scan of `parseProperties`:
`for (const k of Object.keys(OPERATORS)) if (key.endsWith(k)) { ...; break; }`
is a first-match search in table order. -/
def findOp (key : String) : Option (String × String) :=
  OPERATORS.find? (fun p => strEndsWith key p.fst)

/-- The `suffix` variable after the scan (`""` when no operator matched). -/
def opSuffix (key : String) : String :=
  match findOp key with
  | some p => p.fst
  | none => ""

/-- The `unit` variable after the scan (`""` when no operator matched). -/
def opUnit (key : String) : String :=
  match findOp key with
  | some p => p.snd
  | none => ""

/-- The `key` variable after the scan: `key.slice(0, -k.length)` for the
matched table key `k`, unchanged otherwise. -/
def corePart (key : String) : String :=
  match findOp key with
  | some p => dropEnd key p.fst.length
  | none => key

/-- `propKey = this.camelToKebab(key)` after the scan. -/
def propKeyOf (key : String) : String := camelToKebab (corePart key)

/-- The key used for the recursive array call: `propKey + suffix`. -/
def recKey (key : String) : String := propKeyOf key ++ opSuffix key

/-- The numeric/boolean fallthrough of `parseProperties`:
`if (unit) value+unit; else if (UNITLESS_PROPERTIES.includes(propKey))
String(value); else value+"px"`. -/
def applyUnit (key : String) (s : String) : String :=
  if opUnit key ≠ "" then s ++ opUnit key
  else if UNITLESS_PROPERTIES.contains (propKeyOf key) then s
  else s ++ "px"

mutual

/-- The `propValue` computation of `parseProperties` from design.ts.
Branches in source order: arrays recurse per element under `propKey + suffix`
(the propValue halves are joined with a single space); the number `0` is
emitted bare; strings are wrapped for the `Var`/`Url`/`Calc` operators and
passed through otherwise; everything else is stringified and given a unit by
`applyUnit`.  (`String(null) = "null"`, `String(true) = "true"`, and a nested
object stringifies as `"[object Object]"`.) -/
def parseValue (key : String) : CSSValue → String
  | CSSValue.arr l => joinSep " " (parseElems (recKey key) l)
  | CSSValue.num n => if n = 0 then "0" else applyUnit key (toString n)
  | CSSValue.str s =>
      if opSuffix key = "Var" then "var(--" ++ s ++ ")"
      else if opSuffix key = "Url" then "url(" ++ s ++ ")"
      else if opSuffix key = "Calc" then "calc(" ++ s ++ ")"
      else s
  | CSSValue.bool b => applyUnit key (if b then "true" else "false")
  | CSSValue.null => applyUnit key "null"
  | CSSValue.obj _ => applyUnit key "[object Object]"

/-- The `value.map(v => this.parseProperties(propKey + suffix, v).propValue)`
recursion of the array branch, element by element. -/
def parseElems (key : String) : List CSSValue → List String
  | [] => []
  | v :: rest => parseValue key v :: parseElems key rest

end

/-- `parseProperties` from design.ts: returns `{propKey, propValue}`. -/
def parseProperties (key : String) (value : CSSValue) : String × String :=
  (propKeyOf key, parseValue key value)

/-- `americanise` from design.ts: a whole-string lookup in the UK→US
`convert` record, falling back to the input itself. -/
def americanise (v : String) : String :=
  if v = "colour" then "color"
  else if v = "centre" then "center"
  else if v = "grey" then "gray"
  else if v = "behaviour" then "behavior"
  else v

mutual

/-- JavaScript string interpolation `${value}` of a `CSSValue` (used for
selector parts and the keyframes name): strings verbatim, numbers via
`String()`, `null` → `"null"`, arrays join with `","`, objects display as
`"[object Object]"`. -/
def jsDisplay : CSSValue → String
  | CSSValue.str s => s
  | CSSValue.num n => toString n
  | CSSValue.bool b => if b then "true" else "false"
  | CSSValue.null => "null"
  | CSSValue.arr l => joinSep "," (displayElems l)
  | CSSValue.obj _ => "[object Object]"

/-- Element-wise display for array interpolation. -/
def displayElems : List CSSValue → List String
  | [] => []
  | v :: rest => jsDisplay v :: displayElems rest

end

/-- Interpolation of a possibly-missing property: JavaScript renders a missing
property (`undefined`) as `"undefined"`. -/
def displayO : Option CSSValue → String
  | none => "undefined"
  | some v => jsDisplay v

/-- JavaScript truthiness of a `CSSValue`. -/
def jsTruthy : CSSValue → Bool
  | CSSValue.str s => s ≠ ""
  | CSSValue.num n => n ≠ 0
  | CSSValue.bool b => b
  | CSSValue.null => false
  | CSSValue.arr _ => true
  | CSSValue.obj _ => true

/-- Truthiness of a property access (missing property = `undefined` = falsy). -/
def jsTruthyO : Option CSSValue → Bool
  | none => false
  | some v => jsTruthy v

/-- JavaScript property access `config[k]` on an object literal. -/
def lk (css : Config) (k : String) : Option CSSValue :=
  (css.find? (fun p => p.fst = k)).map (fun p => p.snd)

/-- The reserved keys skipped by `compileCSS`:
`class`, `pseudoClass`, `media`, `keyframes`. -/
def isReservedKey (k : String) : Bool :=
  k = "class" || k = "pseudoClass" || k = "media" || k = "keyframes"

/-- One declaration line appended by `compileCSS`:
`"\n  " + americanise(propKey) + ": " + americanise(propValue) + ";"`. -/
def declLine (k : String) (v : CSSValue) : String :=
  "\n  " ++ americanise (parseProperties k v).fst ++ ": "
    ++ americanise (parseProperties k v).snd ++ ";"

/-- `compileCSS` from design.ts: iterate the config in insertion order,
skip the reserved keys, and append one declaration line per property. -/
def compileCSS (css : Config) : String :=
  css.foldl (fun acc p => if isReservedKey p.fst then acc else acc ++ declLine p.fst p.snd) ""

/-- The breakpoint-marker test of `compileMedia`:
`k.toLowerCase().endsWith("bp")`. -/
def isBpKey (k : String) : Bool := strEndsWith (jsToLowerCase k) "bp"

/-- `compileMedia` from design.ts.  Finds the first breakpoint-marked entry
(throwing when there is none), turns it into the `@media` heading via
`parseBreakpoint` (which drops the final two characters, the length of
`"Bp"`), deletes every breakpoint-marked key from a copy, resolves the
selector from the media config's own `class`/`pseudoClass` with fallback to
the parent's, and compiles the remaining declarations with `compileCSS`. -/
def compileMedia (media : Config) (parentClass parentPseudo : Option CSSValue) :
    Except String String :=
  match media.find? (fun p => isBpKey p.fst) with
  | none => Except.error "Media config must include a *Bp key"
  | some bp =>
    let heading := parseProperties (dropEnd bp.fst 2) bp.snd
    let inner := media.filter (fun p => !isBpKey p.fst)
    let cls := if jsTruthyO (lk media "class") then lk media "class" else parentClass
    let pseudo :=
      if jsTruthyO (lk media "pseudoClass") then lk media "pseudoClass" else parentPseudo
    let selector :=
      "." ++ displayO cls ++ (if jsTruthyO pseudo then ":" ++ displayO pseudo else "")
    Except.ok ("\n@media (" ++ heading.fst ++ ": " ++ heading.snd ++ ") \x7b\n  "
      ++ selector ++ " \x7b\n    " ++ compileCSS inner ++ "\n  \x7d\n\x7d")

/-- `normaliseKeyframe` from design.ts: lowercase `from`/`to` pass through in
lowercased form, a key matching `^\d+%$` passes unchanged, anything else
throws. -/
def isPercentKey (s : String) : Bool :=
  match s.data.reverse with
  | '%' :: rest => !rest.isEmpty && rest.all Char.isDigit
  | _ => false

/-- The keyframe step normalisation, with the exception as `Except.error`. -/
def normaliseKeyframe (step : String) : Except String String :=
  if jsToLowerCase step = "from" || jsToLowerCase step = "to" then
    Except.ok (jsToLowerCase step)
  else if isPercentKey step then Except.ok step
  else Except.error "Invalid keyframe step. Use \"from\", \"to\", or \"NN%\"."

/-- `Object.entries(declarations)` for a keyframe step value: a nested object
yields its entries, an array its indexed elements, a string its indexed
characters, and every other primitive has no entries.  (JavaScript throws a
`TypeError` for `null` here; no claim exercises that path.) -/
def entriesOf : CSSValue → Config
  | CSSValue.obj l => l
  | CSSValue.arr l => l.enum.map (fun p => (toString p.fst, p.snd))
  | CSSValue.str s => s.data.enum.map (fun p => (toString p.fst, CSSValue.str ⟨[p.snd]⟩))
  | _ => []

/-- One keyframe declaration line:
`"    " + propKey + ": " + propValue + ";"` — note: no `americanise` here. -/
def kfLine (k : String) (v : CSSValue) : String :=
  "    " ++ (parseProperties k v).fst ++ ": " ++ (parseProperties k v).snd ++ ";"

/-- One step block of `compileKeyframes`: normalise the step name (which may
throw) and emit the step's declarations. -/
def kfBlock (step : String) (declarations : CSSValue) : Except String String :=
  match normaliseKeyframe step with
  | Except.error e => Except.error e
  | Except.ok stepName =>
    Except.ok ("  " ++ stepName ++ " \x7b\n"
      ++ joinSep "\n" ((entriesOf declarations).map (fun q => kfLine q.fst q.snd))
      ++ "\n  \x7d")

/-- The `Object.entries(steps).map(...)` loop: blocks are built left to
right, and the first invalid step throws. -/
def kfBlocks : Config → Except String (List String)
  | [] => Except.ok []
  | p :: rest =>
    match kfBlock p.fst p.snd with
    | Except.error e => Except.error e
    | Except.ok b =>
      match kfBlocks rest with
      | Except.error e => Except.error e
      | Except.ok bs => Except.ok (b :: bs)

/-- `compileKeyframes` from design.ts: `const { name, ...steps } = config`;
a falsy `name` throws; each remaining entry becomes a step block; the blocks
are joined inside `@keyframes <name> { ... }`. -/
def compileKeyframes (config : Config) : Except String String :=
  if jsTruthyO (lk config "name") = false then
    Except.error "Keyframes config must include a name"
  else
    match kfBlocks (config.filter (fun p => p.fst ≠ "name")) with
    | Except.error e => Except.error e
    | Except.ok blocks =>
      Except.ok ("@keyframes " ++ displayO (lk config "name") ++ " \x7b\n"
        ++ joinSep "\n" blocks ++ "\n\x7d")

/-- The selector of the base rule in `create`:
`css.pseudoClass ? `${css.class}:${css.pseudoClass}` : css.class`, then
`selector ? "." + selector : ":host"`.  When `pseudoClass` is truthy the
interpolated selector contains `":"`, hence is a nonempty (truthy) string. -/
def selectorOf (css : Config) : String :=
  if jsTruthyO (lk css "pseudoClass") then
    "." ++ displayO (lk css "class") ++ ":" ++ displayO (lk css "pseudoClass")
  else if jsTruthyO (lk css "class") then "." ++ displayO (lk css "class")
  else ":host"

/-- The `media` step of `create`: compile `css.media` when it is a non-array
object, contribute nothing otherwise. -/
def mediaPart (css : Config) : Except String String :=
  match lk css "media" with
  | some (CSSValue.obj m) => compileMedia m (lk css "class") (lk css "pseudoClass")
  | _ => Except.ok ""

/-- The `keyframes` step of `create`: compile `css.keyframes` when it is a
non-array object, contribute nothing otherwise. -/
def keyframesPart (css : Config) : Except String String :=
  match lk css "keyframes" with
  | some (CSSValue.obj k) => compileKeyframes k
  | _ => Except.ok ""

/-- `create` from design.ts: the base rule, then the media block (if any),
then the keyframes block (if any).  An exception in either sub-compiler
aborts the whole call with no partial output. -/
def create (css : Config) : Except String String :=
  match mediaPart css with
  | Except.error e => Except.error e
  | Except.ok m =>
    match keyframesPart css with
    | Except.error e => Except.error e
    | Except.ok k =>
      Except.ok ("\n" ++ selectorOf css ++ " \x7b" ++ compileCSS css ++ "\x7d\n" ++ m ++ k)

/-! ### Character-level facts

`camelToKebab` lowercases its output, so no operator suffix (each of which
contains an ASCII uppercase letter) can match a kebab-cased key. -/

theorem toLower_not_upper (c : Char) : (Char.toLower c).isUpper = false := by
  unfold Char.toLower
  by_cases h : c.toNat ≥ 65 ∧ c.toNat ≤ 90
  · rw [if_pos h]
    obtain ⟨h1, h2⟩ := h
    interval_cases h3 : c.toNat <;> decide
  · rw [if_neg h]
    simp only [Char.isUpper]
    rw [Bool.and_eq_false_iff]
    simp only [decide_eq_false_iff_not]
    rw [Decidable.not_and_iff_or_not] at h
    rcases h with h | h
    · exact Or.inl (fun hle => h (UInt32.le_def.mp hle))
    · exact Or.inr (fun hle => h (UInt32.le_def.mp hle))

theorem toLower_eq_self_of_not_upper (c : Char) (h : c.isUpper = false) :
    Char.toLower c = c := by
  unfold Char.toLower
  apply if_neg
  intro hc
  obtain ⟨h1, h2⟩ := hc
  simp only [Char.isUpper, Bool.and_eq_false_iff, decide_eq_false_iff_not] at h
  rcases h with h | h
  · exact h (UInt32.le_def.mpr h1)
  · exact h (UInt32.le_def.mpr h2)

theorem insertHyphens_of_no_upper (l : List Char) (h : ∀ c ∈ l, c.isUpper = false) :
    insertHyphens l = l := by
  induction l with
  | nil => rfl
  | cons c1 rest ih =>
    cases rest with
    | nil => rfl
    | cons c2 rest2 =>
      have h2 : c2.isUpper = false := h c2 (by simp)
      have : ((c1.isLower || c1.isDigit) && c2.isUpper) = false := by
        rw [h2, Bool.and_false]
      rw [insertHyphens, if_neg (by simp [this])]
      have := ih (fun c hc => h c (List.mem_cons_of_mem _ hc))
      rw [this]

theorem camelToKebab_no_upper (s : String) :
    ∀ c ∈ (camelToKebab s).data, c.isUpper = false := by
  intro c hc
  simp only [camelToKebab, List.mem_map] at hc
  obtain ⟨x, _, hx⟩ := hc
  rw [← hx]
  exact toLower_not_upper x

theorem camelToKebab_idem (s : String) :
    camelToKebab (camelToKebab s) = camelToKebab s := by
  apply String.ext
  show ((insertHyphens (camelToKebab s).data).map Char.toLower) = (camelToKebab s).data
  rw [insertHyphens_of_no_upper _ (camelToKebab_no_upper s)]
  apply List.map_congr_left ?_ |>.trans (List.map_id _)
  intro c hc
  exact toLower_eq_self_of_not_upper c (camelToKebab_no_upper s c hc)

/-! ### Suffix-scan facts

The operator scan is a first-match search.  The facts below pin down which
entry it finds: appending a table suffix `S ≠ "KHz"` to any key makes the
scan find exactly `S` (no earlier entry can match, because no earlier table
key is a suffix of `S` or has `S` as a suffix), and `"KHz"` itself is
unreachable because `"Hz"` precedes it in the table and matches every key
that ends in `"KHz"`. -/

theorem strEndsWith_iff (s t : String) : strEndsWith s t = true ↔ t.data <:+ s.data := by
  simp [strEndsWith]

theorem strEndsWith_append_self (k s : String) : strEndsWith (k ++ s) s = true := by
  rw [strEndsWith_iff, String.data_append]
  exact List.suffix_append k.data s.data

theorem not_strEndsWith_append (k S E : String)
    (h1 : ¬ E.data <:+ S.data) (h2 : ¬ S.data <:+ E.data) :
    strEndsWith (k ++ S) E = false := by
  rw [Bool.eq_false_iff]
  intro hc
  rw [strEndsWith_iff, String.data_append] at hc
  have hS : S.data <:+ k.data ++ S.data := List.suffix_append k.data S.data
  rcases Nat.le_total E.data.length S.data.length with hle | hle
  · exact h1 (List.suffix_of_suffix_length_le hc hS hle)
  · exact h2 (List.suffix_of_suffix_length_le hS hc hle)

theorem find?_first_of_takeWhile {L : List (String × String)} {S U : String} (K : String)
    (hmem : (S, U) ∈ L)
    (hnodup : (L.map Prod.fst).Nodup)
    (hK : strEndsWith K S = true)
    (hno : ∀ q ∈ L.takeWhile (fun r => r.fst ≠ S), strEndsWith K q.fst = false) :
    L.find? (fun p => strEndsWith K p.fst) = some (S, U) := by
  induction L with
  | nil => cases hmem
  | cons p t ih =>
    by_cases hp : p.fst = S
    · have hpu : p = (S, U) := by
        rcases List.mem_cons.mp hmem with h | h
        · exact h.symm
        · exfalso
          rw [List.map_cons, List.nodup_cons] at hnodup
          exact hnodup.1 (hp ▸ (List.mem_map.mpr ⟨(S, U), h, rfl⟩))
      rw [List.find?_cons_of_pos (p := fun q => strEndsWith K q.fst) t (by show strEndsWith K p.fst = true; rw [hp]; exact hK), hpu]
    · have hpfalse : strEndsWith K p.fst = false := by
        apply hno p
        rw [List.takeWhile_cons, if_pos (by simpa using hp)]
        exact List.mem_cons_self p _
      rw [List.find?_cons_of_neg (p := fun q => strEndsWith K q.fst) t (by simp [hpfalse])]
      apply ih
      · rcases List.mem_cons.mp hmem with h | h
        · exact absurd (congrArg Prod.fst h.symm) hp
        · exact h
      · exact (List.nodup_cons.mp (List.map_cons _ p t ▸ hnodup)).2
      · intro q hq
        apply hno q
        rw [List.takeWhile_cons, if_pos (by simpa using hp)]
        exact List.mem_cons_of_mem p hq

theorem find?_match_takeWhile {L : List (String × String)} {r : String × String} (K : String)
    (h : L.find? (fun p => strEndsWith K p.fst) = some r)
    (hnodup : (L.map Prod.fst).Nodup) :
    ∀ q ∈ L.takeWhile (fun x => x.fst ≠ r.fst), strEndsWith K q.fst = false := by
  induction L with
  | nil => simp at h
  | cons p t ih =>
    by_cases hp : strEndsWith K p.fst = true
    · rw [List.find?_cons_of_pos (p := fun q => strEndsWith K q.fst) t hp] at h
      have hr : p = r := by injection h
      intro q hq
      rw [List.takeWhile_cons, if_neg (by simp [hr])] at hq
      cases hq
    · rw [List.find?_cons_of_neg (p := fun q => strEndsWith K q.fst) t (by simp [hp])] at h
      have hrt : r ∈ t := List.mem_of_find?_eq_some h
      have hpr : p.fst ≠ r.fst := by
        rw [List.map_cons, List.nodup_cons] at hnodup
        intro he
        exact hnodup.1 (he ▸ List.mem_map.mpr ⟨r, hrt, rfl⟩)
      intro q hq
      rw [List.takeWhile_cons, if_pos (by simpa using hpr)] at hq
      rcases List.mem_cons.mp hq with hqp | hqt
      · rw [hqp]
        exact Bool.eq_false_iff.mpr hp
      · exact ih h (List.nodup_cons.mp (List.map_cons _ p t ▸ hnodup)).2 q hqt

set_option maxRecDepth 4000

/-- No operator key that precedes `S` in the table is suffix-related to `S`
(for `S ≠ "KHz"`; `"Hz"` precedes and is a suffix of `"KHz"`). -/
theorem ops_pairwise : ∀ p ∈ OPERATORS, p.fst ≠ "KHz" →
    ∀ q ∈ OPERATORS.takeWhile (fun r => r.fst ≠ p.fst),
      q.fst.data.isSuffixOf p.fst.data = false ∧ p.fst.data.isSuffixOf q.fst.data = false := by
  decide

theorem ops_nodup : (OPERATORS.map Prod.fst).Nodup := by decide

theorem ops_upper : ∀ p ∈ OPERATORS, p.fst.data.any Char.isUpper = true := by decide

theorem hz_in_takeWhile :
    ("Hz", "Hz") ∈ OPERATORS.takeWhile (fun r => r.fst ≠ "KHz") := by decide

theorem hz_suffix_khz : ("Hz" : String).data <:+ ("KHz" : String).data := by decide

/-- Appending a table suffix `S ≠ "KHz"` to any key makes the scan find
exactly the `S` entry: first-match in table order selects `S`. -/
theorem findOp_append (S U key : String) (hmem : (S, U) ∈ OPERATORS) (hS : S ≠ "KHz") :
    findOp (key ++ S) = some (S, U) := by
  apply find?_first_of_takeWhile (key ++ S) hmem ops_nodup (strEndsWith_append_self key S)
  intro q hq
  have h := ops_pairwise (S, U) hmem hS q hq
  apply not_strEndsWith_append
  · intro hc
    rw [← List.isSuffixOf_iff_suffix] at hc
    rw [h.1] at hc
    cases hc
  · intro hc
    rw [← List.isSuffixOf_iff_suffix] at hc
    rw [h.2] at hc
    cases hc

/-- A kebab-cased key has no uppercase characters, so no operator suffix
(each contains an uppercase letter) can match it. -/
theorem findOp_kebab_none (s : String) : findOp (camelToKebab s) = none := by
  rw [findOp, List.find?_eq_none]
  intro p hp hc
  simp only [strEndsWith_iff] at hc
  obtain ⟨c, hcmem, hcup⟩ := List.any_eq_true.mp (ops_upper p hp)
  have : c ∈ (camelToKebab s).data := hc.subset hcmem
  rw [camelToKebab_no_upper s c this] at hcup
  cases hcup

/-- The scan can never select the `"KHz"` entry: any key ending in `"KHz"`
also ends in `"Hz"`, which precedes it in the table. -/
theorem findOp_ne_KHz (key : String) (r : String × String) (h : findOp key = some r) :
    r.fst ≠ "KHz" := by
  intro hr
  rw [findOp] at h
  have hmatch : strEndsWith key r.fst = true := List.find?_some (p := fun (q : String × String) => strEndsWith key q.fst) h
  have hno := find?_match_takeWhile key h ops_nodup
  have hhz : strEndsWith key "Hz" = false := by
    apply hno ("Hz", "Hz")
    rw [hr]
    exact hz_in_takeWhile
  rw [strEndsWith_iff] at hmatch
  rw [hr] at hmatch
  have : strEndsWith key "Hz" = true := by
    rw [strEndsWith_iff]
    exact List.IsSuffix.trans hz_suffix_khz hmatch
  rw [this] at hhz
  cases hhz

theorem dropEnd_append (a b : String) : dropEnd (a ++ b) b.length = a := by
  apply String.ext
  show ((a ++ b).data.take ((a ++ b).data.length - b.data.length)) = a.data
  rw [String.data_append, List.length_append, Nat.add_sub_cancel]
  exact List.take_left a.data b.data

theorem string_append_empty (s : String) : s ++ "" = s := by
  apply String.ext
  rw [String.data_append]
  exact List.append_nil s.data

/-- The recursion key `propKey + suffix` scans to the same operator entry as
the original key. -/
theorem findOp_recKey (key : String) : findOp (recKey key) = findOp key := by
  cases h : findOp key with
  | none =>
    rw [recKey, opSuffix, h, propKeyOf, corePart, h, string_append_empty]
    exact findOp_kebab_none key
  | some r =>
    have hmem : (r.fst, r.snd) ∈ OPERATORS := List.mem_of_find?_eq_some h
    have hS : r.fst ≠ "KHz" := findOp_ne_KHz key r h
    rw [recKey, opSuffix, h]
    rw [findOp_append r.fst r.snd (propKeyOf key) hmem hS]

theorem opSuffix_recKey (key : String) : opSuffix (recKey key) = opSuffix key := by
  rw [opSuffix, opSuffix, findOp_recKey]

theorem opUnit_recKey (key : String) : opUnit (recKey key) = opUnit key := by
  rw [opUnit, opUnit, findOp_recKey]

theorem propKeyOf_recKey (key : String) : propKeyOf (recKey key) = propKeyOf key := by
  cases h : findOp key with
  | none =>
    have hrec : recKey key = camelToKebab key := by
      rw [recKey, opSuffix, h, propKeyOf, corePart, h, string_append_empty]
    rw [propKeyOf, corePart, hrec, findOp_kebab_none key, propKeyOf, corePart, h]
    exact camelToKebab_idem key
  | some r =>
    have hfo : findOp (recKey key) = some r := by rw [findOp_recKey, h]
    have hrec : recKey key = propKeyOf key ++ r.fst := by
      rw [recKey, opSuffix, h]
    rw [propKeyOf, corePart, hfo]
    show camelToKebab (dropEnd (recKey key) r.fst.length) = propKeyOf key
    rw [hrec, dropEnd_append, propKeyOf]
    exact camelToKebab_idem (corePart key)

theorem recKey_idem (key : String) : recKey (recKey key) = recKey key := by
  rw [recKey, propKeyOf_recKey, opSuffix_recKey, recKey]

theorem applyUnit_recKey (key s : String) : applyUnit (recKey key) s = applyUnit key s := by
  rw [applyUnit, applyUnit, opUnit_recKey, propKeyOf_recKey]

/-- The propValue computed under the recursion key agrees with the propValue
computed under the original key, for every value. -/
theorem parseValue_recKey (key : String) (v : CSSValue) :
    parseValue (recKey key) v = parseValue key v := by
  cases v with
  | arr l =>
    rw [parseValue, parseValue, recKey_idem]
  | num n =>
    rw [parseValue, parseValue, applyUnit_recKey]
  | str s =>
    rw [parseValue, parseValue, opSuffix_recKey]
  | bool b =>
    rw [parseValue, parseValue, applyUnit_recKey]
  | null =>
    rw [parseValue, parseValue, applyUnit_recKey]
  | obj l =>
    rw [parseValue, parseValue, applyUnit_recKey]

theorem parseElems_eq_map (key : String) (l : List CSSValue) :
    parseElems key l = l.map (parseValue key) := by
  induction l with
  | nil => rfl
  | cons v rest ih => rw [parseElems, ih, List.map_cons]

/-- Resolving an array value joins the element resolutions (under the same
key) with single spaces. -/
theorem parseValue_arr (key : String) (l : List CSSValue) :
    parseValue key (CSSValue.arr l) = joinSep " " (l.map (fun v => parseValue key v)) := by
  rw [parseValue, parseElems_eq_map]
  congr 1
  apply List.map_congr_left
  intro v _
  exact parseValue_recKey key v

/-! ### Declaration-emission facts -/

/-- The contribution of one config entry to the `compileCSS` output: nothing
for a reserved key, one declaration line otherwise. -/
def entryChunk (p : String × CSSValue) : String :=
  if isReservedKey p.fst then "" else declLine p.fst p.snd

def concatAll : List String → String
  | [] => ""
  | s :: t => s ++ concatAll t

theorem compileCSS_foldl (css : Config) : ∀ acc : String,
    css.foldl (fun acc p => if isReservedKey p.fst then acc else acc ++ declLine p.fst p.snd) acc
      = acc ++ concatAll (css.map entryChunk) := by
  induction css with
  | nil => intro acc; rw [List.foldl_nil, List.map_nil, concatAll, String.append_empty]
  | cons p t ih =>
    intro acc
    rw [List.foldl_cons, List.map_cons, concatAll, ih]
    by_cases h : isReservedKey p.fst = true
    · rw [if_pos h, entryChunk, if_pos h, String.empty_append]
    · rw [if_neg h, entryChunk, if_neg h, String.append_assoc]

theorem compileCSS_eq (css : Config) : compileCSS css = concatAll (css.map entryChunk) := by
  rw [compileCSS, compileCSS_foldl, String.empty_append]

theorem concatAll_infix {x : String} {l : List String} (h : x ∈ l) :
    ∃ pre post, concatAll l = pre ++ x ++ post := by
  induction l with
  | nil => cases h
  | cons y t ih =>
    rcases List.mem_cons.mp h with hy | ht
    · exact ⟨"", concatAll t, by rw [concatAll, hy, String.empty_append]⟩
    · obtain ⟨pre, post, hp⟩ := ih ht
      exact ⟨y ++ pre, post, by rw [concatAll, hp, ← String.append_assoc, ← String.append_assoc]⟩

/-- Every non-reserved entry of a config contributes its (dialect-substituted)
declaration line verbatim to the `compileCSS` output. -/
theorem compileCSS_infix (css : Config) (k : String) (v : CSSValue)
    (h : (k, v) ∈ css) (hres : isReservedKey k = false) :
    ∃ pre post, compileCSS css = pre ++ declLine k v ++ post := by
  rw [compileCSS_eq]
  have : declLine k v = entryChunk (k, v) := by rw [entryChunk, if_neg (by simp [hres])]
  rw [this]
  exact concatAll_infix (List.mem_map_of_mem entryChunk h)

/-- Reserved keys contribute nothing: filtering them away does not change the
compiled declaration body. -/
theorem compileCSS_filter_reserved (css : Config) :
    compileCSS css = compileCSS (css.filter (fun p => !isReservedKey p.fst)) := by
  rw [compileCSS_eq, compileCSS_eq]
  induction css with
  | nil => rfl
  | cons p t ih =>
    by_cases h : isReservedKey p.fst = true
    · rw [List.map_cons, concatAll, entryChunk, if_pos h, String.empty_append, ih,
        List.filter_cons, if_neg (by simp [h])]
    · rw [List.map_cons, concatAll, ih, List.filter_cons, if_pos (by simp [h]),
        List.map_cons, concatAll]

theorem joinSep_infix (sep : String) {x : String} {l : List String} (h : x ∈ l) :
    ∃ pre post, joinSep sep l = pre ++ x ++ post := by
  induction l with
  | nil => cases h
  | cons y t ih =>
    cases t with
    | nil =>
      rcases List.mem_cons.mp h with hy | ht
      · exact ⟨"", "", by rw [joinSep, hy, String.empty_append, String.append_empty]⟩
      · cases ht
    | cons z rest =>
      rcases List.mem_cons.mp h with hy | ht
      · exact ⟨"", sep ++ joinSep sep (z :: rest), by
          rw [joinSep, hy, String.empty_append, String.append_assoc]⟩
      · obtain ⟨pre, post, hp⟩ := ih ht
        exact ⟨y ++ sep ++ pre, post, by
          rw [joinSep, hp, ← String.append_assoc, ← String.append_assoc]⟩

/-! ### Keyframes facts -/

/-- The single error message `normaliseKeyframe` can throw. -/
def invalidStepMsg : String := "Invalid keyframe step. Use \"from\", \"to\", or \"NN%\"."

theorem normaliseKeyframe_error (st e : String) (h : normaliseKeyframe st = Except.error e) :
    e = invalidStepMsg := by
  rw [normaliseKeyframe] at h
  by_cases h1 : (jsToLowerCase st = "from" || jsToLowerCase st = "to") = true
  · rw [if_pos h1] at h; cases h
  · rw [if_neg h1] at h
    by_cases h2 : isPercentKey st = true
    · rw [if_pos h2] at h; cases h
    · rw [if_neg h2] at h
      injection h with he
      exact he.symm

theorem normaliseKeyframe_invalid (st : String)
    (h1 : jsToLowerCase st ≠ "from") (h2 : jsToLowerCase st ≠ "to")
    (h3 : isPercentKey st = false) :
    normaliseKeyframe st = Except.error invalidStepMsg := by
  rw [normaliseKeyframe, if_neg (by simp [h1, h2]), if_neg (by simp [h3]), invalidStepMsg]

theorem kfBlock_error (st : String) (d : CSSValue) (e : String)
    (h : kfBlock st d = Except.error e) : normaliseKeyframe st = Except.error e := by
  rw [kfBlock] at h
  cases hn : normaliseKeyframe st with
  | error e2 => rw [hn] at h; injection h with he; rw [he]
  | ok s => rw [hn] at h; cases h

theorem kfBlock_ok (st : String) (d : CSSValue) (s : String)
    (h : normaliseKeyframe st = Except.ok s) :
    kfBlock st d = Except.ok ("  " ++ s ++ " \x7b\n"
      ++ joinSep "\n" ((entriesOf d).map (fun q => kfLine q.fst q.snd)) ++ "\n  \x7d") := by
  rw [kfBlock, h]

/-- If any step of the list is invalid, building the blocks throws the
(constant) invalid-step error. -/
theorem kfBlocks_error (steps : Config) (st : String) (d : CSSValue)
    (hmem : (st, d) ∈ steps) (hbad : normaliseKeyframe st = Except.error invalidStepMsg) :
    kfBlocks steps = Except.error invalidStepMsg := by
  induction steps with
  | nil => cases hmem
  | cons p t ih =>
    rw [kfBlocks]
    cases hb : kfBlock p.fst p.snd with
    | error e =>
      rw [normaliseKeyframe_error p.fst e (kfBlock_error p.fst p.snd e hb)]
    | ok b =>
      rcases List.mem_cons.mp hmem with hp | ht
      · exfalso
        have hb2 : kfBlock st d = Except.ok b := by rw [← hp] at hb; exact hb
        rw [kfBlock, hbad] at hb2
        cases hb2
      · rw [ih ht]

/-- A successful block build contains, for every step, the block text built
from that step's normalised name and raw (unsubstituted) declaration lines. -/
theorem kfBlocks_mem (steps : Config) (blocks : List String)
    (h : kfBlocks steps = Except.ok blocks) (st : String) (d : CSSValue)
    (hmem : (st, d) ∈ steps) :
    ∃ blk ∈ blocks, ∃ s, normaliseKeyframe st = Except.ok s ∧
      blk = "  " ++ s ++ " \x7b\n"
        ++ joinSep "\n" ((entriesOf d).map (fun q => kfLine q.fst q.snd)) ++ "\n  \x7d" := by
  induction steps generalizing blocks with
  | nil => cases hmem
  | cons p t ih =>
    rw [kfBlocks] at h
    cases hb : kfBlock p.fst p.snd with
    | error e => rw [hb] at h; cases h
    | ok b =>
      rw [hb] at h
      cases hbs : kfBlocks t with
      | error e => rw [hbs] at h; cases h
      | ok bs =>
        rw [hbs] at h
        injection h with hblocks
        rcases List.mem_cons.mp hmem with hp | ht
        · have hb2 : kfBlock st d = Except.ok b := by rw [← hp] at hb; exact hb
          cases hn : normaliseKeyframe st with
          | error e =>
            exfalso
            rw [kfBlock, hn] at hb2
            cases hb2
          | ok s =>
            refine ⟨b, ?_, s, rfl, ?_⟩
            · rw [← hblocks]
              exact List.mem_cons_self b bs
            · rw [kfBlock_ok st d s hn] at hb2
              injection hb2 with hb3
              exact hb3.symm
        · obtain ⟨blk, hblk, s, hn, hs⟩ := ih bs hbs ht
          refine ⟨blk, ?_, s, hn, hs⟩
          rw [← hblocks]
          exact List.mem_cons_of_mem b hblk

/-! ### Substring containment and compile-call plumbing -/

/-- `big` contains `small` as a contiguous substring. -/
def containsStr (big small : String) : Prop :=
  ∃ pre post, big = pre ++ small ++ post

theorem containsStr_self (s : String) : containsStr s s :=
  ⟨"", "", by rw [String.empty_append, String.append_empty]⟩

theorem containsStr_wrap {a x : String} (pre post : String) (h : containsStr a x) :
    containsStr (pre ++ a ++ post) x := by
  obtain ⟨p1, p2, hp⟩ := h
  exact ⟨pre ++ p1, p2 ++ post, by rw [hp]; simp only [String.append_assoc]⟩

theorem containsStr_trans {a b x : String} (h1 : containsStr b a) (h2 : containsStr a x) :
    containsStr b x := by
  obtain ⟨p1, p2, hp⟩ := h1
  rw [hp]
  exact containsStr_wrap p1 p2 h2

theorem joinSep_containsStr (sep : String) {x : String} {l : List String} (h : x ∈ l) :
    containsStr (joinSep sep l) x := joinSep_infix sep h

theorem compileCSS_containsStr (css : Config) (k : String) (v : CSSValue)
    (h : (k, v) ∈ css) (hres : isReservedKey k = false) :
    containsStr (compileCSS css) (declLine k v) := compileCSS_infix css k v h hres

theorem compileMedia_no_bp (media : Config) (pc pp : Option CSSValue)
    (h : media.find? (fun p => isBpKey p.fst) = none) :
    compileMedia media pc pp = Except.error "Media config must include a *Bp key" := by
  rw [compileMedia, h]

theorem compileMedia_ok (media : Config) (pc pp : Option CSSValue) (bp : String × CSSValue)
    (h : media.find? (fun p => isBpKey p.fst) = some bp) :
    compileMedia media pc pp = Except.ok ("\n@media ("
      ++ (parseProperties (dropEnd bp.fst 2) bp.snd).fst ++ ": "
      ++ (parseProperties (dropEnd bp.fst 2) bp.snd).snd ++ ") \x7b\n  "
      ++ ("." ++ displayO (if jsTruthyO (lk media "class") then lk media "class" else pc)
        ++ (if jsTruthyO (if jsTruthyO (lk media "pseudoClass") then lk media "pseudoClass"
              else pp)
            then ":" ++ displayO (if jsTruthyO (lk media "pseudoClass")
              then lk media "pseudoClass" else pp)
            else ""))
      ++ " \x7b\n    " ++ compileCSS (media.filter (fun p => !isBpKey p.fst))
      ++ "\n  \x7d\n\x7d") := by
  rw [compileMedia, h]

theorem compileKeyframes_no_name (config : Config)
    (h : jsTruthyO (lk config "name") = false) :
    compileKeyframes config = Except.error "Keyframes config must include a name" := by
  rw [compileKeyframes, if_pos h]

theorem compileKeyframes_step_error (config : Config) (st : String) (d : CSSValue)
    (hname : jsTruthyO (lk config "name") = true)
    (hmem : (st, d) ∈ config) (hst : st ≠ "name")
    (hbad : normaliseKeyframe st = Except.error invalidStepMsg) :
    compileKeyframes config = Except.error invalidStepMsg := by
  rw [compileKeyframes, if_neg (by rw [hname]; simp)]
  have hmem2 : (st, d) ∈ config.filter (fun p => p.fst ≠ "name") :=
    List.mem_filter.mpr ⟨hmem, by simp [hst]⟩
  rw [kfBlocks_error _ st d hmem2 hbad]

/-- A successful keyframes compile contains, for every declaration of every
step, the raw declaration line (without dialect substitution). -/
theorem compileKeyframes_containsStr (config : Config) (out : String)
    (h : compileKeyframes config = Except.ok out)
    (st : String) (d : CSSValue) (hmem : (st, d) ∈ config) (hst : st ≠ "name")
    (k : String) (v : CSSValue) (hkv : (k, v) ∈ entriesOf d) :
    containsStr out (kfLine k v) := by
  rw [compileKeyframes] at h
  by_cases hname : jsTruthyO (lk config "name") = false
  · rw [if_pos hname] at h; cases h
  · rw [if_neg hname] at h
    cases hbs : kfBlocks (config.filter (fun p => p.fst ≠ "name")) with
    | error e => rw [hbs] at h; cases h
    | ok blocks =>
      rw [hbs] at h
      injection h with hout
      have hmem2 : (st, d) ∈ config.filter (fun p => p.fst ≠ "name") :=
        List.mem_filter.mpr ⟨hmem, by simp [hst]⟩
      obtain ⟨blk, hblk, s, _, hb⟩ := kfBlocks_mem _ blocks hbs st d hmem2
      rw [← hout]
      have houter : containsStr
          ("@keyframes " ++ displayO (lk config "name") ++ " \x7b\n"
            ++ joinSep "\n" blocks ++ "\n\x7d") (joinSep "\n" blocks) :=
        ⟨"@keyframes " ++ displayO (lk config "name") ++ " \x7b\n", "\n\x7d", by
          simp only [String.append_assoc]⟩
      have hblk2 : containsStr (joinSep "\n" blocks) blk := joinSep_containsStr "\n" hblk
      have hprops : containsStr blk
          (joinSep "\n" ((entriesOf d).map (fun q => kfLine q.fst q.snd))) := by
        rw [hb]
        exact ⟨"  " ++ s ++ " \x7b\n", "\n  \x7d", by simp only [String.append_assoc]⟩
      have hmap : kfLine k v ∈ (entriesOf d).map (fun q => kfLine q.fst q.snd) :=
        List.mem_map.mpr ⟨(k, v), hkv, rfl⟩
      have hline : containsStr
          (joinSep "\n" ((entriesOf d).map (fun q => kfLine q.fst q.snd))) (kfLine k v) :=
        joinSep_containsStr "\n" hmap
      exact containsStr_trans houter (containsStr_trans hblk2 (containsStr_trans hprops hline))

theorem create_media_error (css : Config) (e : String) (h : mediaPart css = Except.error e) :
    create css = Except.error e := by
  rw [create, h]

theorem create_kf_error (css : Config) (m e : String)
    (hm : mediaPart css = Except.ok m) (h : keyframesPart css = Except.error e) :
    create css = Except.error e := by
  rw [create, hm, h]

theorem create_ok (css : Config) (m k : String)
    (hm : mediaPart css = Except.ok m) (hk : keyframesPart css = Except.ok k) :
    create css = Except.ok ("\n" ++ selectorOf css ++ " \x7b" ++ compileCSS css
      ++ "\x7d\n" ++ m ++ k) := by
  rw [create, hm, hk]

theorem mediaPart_obj (css : Config) (m : Config) (h : lk css "media" = some (CSSValue.obj m)) :
    mediaPart css = compileMedia m (lk css "class") (lk css "pseudoClass") := by
  rw [mediaPart, h]

theorem keyframesPart_obj (css : Config) (kf : Config)
    (h : lk css "keyframes" = some (CSSValue.obj kf)) :
    keyframesPart css = compileKeyframes kf := by
  rw [keyframesPart, h]

/-! ### Remaining table facts -/

theorem ops_unit_nonempty : ∀ p ∈ OPERATORS, p.snd ≠ "" := by decide

/-! ### Claim theorems -/

/-- C7: for every key, with or without an operator suffix, resolving the
scalar number value 0 yields the literal property value "0" with no unit
appended. -/
theorem spec_C7_zero_is_bare (key : String) :
    (parseProperties key (CSSValue.num 0)).snd = "0" := by
  rw [parseProperties]
  show parseValue key (CSSValue.num 0) = "0"
  rw [parseValue, if_pos rfl]

/-- C6: resolving a two-element array under a (suffixed) key joins the two
element resolutions under the same key with a single space, and in general an
array resolves to the space-joined element resolutions — each element
receiving the same unit treatment as the suffixed key, recursively for nested
arrays of arbitrary depth (the elements here range over all values,
including arrays). -/
theorem spec_C6_array_resolution (key : String) (a b : CSSValue) (l : List CSSValue) :
    (parseProperties key (CSSValue.arr [a, b])).snd
        = (parseProperties key a).snd ++ " " ++ (parseProperties key b).snd
      ∧ (parseProperties key (CSSValue.arr l)).snd
        = joinSep " " (l.map (fun v => (parseProperties key v).snd)) := by
  constructor
  · show parseValue key (CSSValue.arr [a, b])
        = parseValue key a ++ " " ++ parseValue key b
    rw [parseValue_arr, List.map_cons, List.map_cons, List.map_nil, joinSep, joinSep]
  · exact parseValue_arr key l

/-- C10: inside an array value, an element that is the number 0 contributes
the literal "0" (no unit) to the joined property value, even when the other
elements of the same array receive the suffix unit or the default pixel
unit — zero suppression is per-element. -/
theorem spec_C10_zero_per_element (key : String) (l1 l2 : List CSSValue) :
    (parseProperties key (CSSValue.arr (l1 ++ CSSValue.num 0 :: l2))).snd
      = joinSep " " (l1.map (fun v => (parseProperties key v).snd)
          ++ "0" :: l2.map (fun v => (parseProperties key v).snd)) := by
  show parseValue key (CSSValue.arr (l1 ++ CSSValue.num 0 :: l2)) = _
  rw [parseValue_arr, List.map_append, List.map_cons]
  have h0 : parseValue key (CSSValue.num 0) = "0" := by rw [parseValue, if_pos rfl]
  rw [h0]
  rfl

/-- C8: a nonzero numeric value whose key carries no operator suffix resolves
to `String(v) + "px"` when the normalized property name is not in the
unitless list, and to the bare stringified number when it is. -/
theorem spec_C8_default_px (key : String) (v : Int)
    (h : findOp key = none) (hv : v ≠ 0) :
    (parseProperties key (CSSValue.num v)).snd
      = if UNITLESS_PROPERTIES.contains (camelToKebab key) then toString v
        else toString v ++ "px" := by
  have hcore : corePart key = key := by rw [corePart, h]
  have hunit : opUnit key = "" := by rw [opUnit, h]
  show parseValue key (CSSValue.num v) = _
  rw [parseValue, if_neg hv, applyUnit, hunit, if_neg (by simp), propKeyOf, hcore]

/-- Witness for C8 at concrete inputs: `maxWidth: 500` resolves to `"500px"`
and the unitless `opacity: 2` to `"2"`. -/
theorem spec_C8_default_px_witness :
    (parseProperties "maxWidth" (CSSValue.num 500)).snd = "500px"
      ∧ (parseProperties "opacity" (CSSValue.num 2)).snd = "2" := by
  constructor
  · exact (spec_C8_default_px "maxWidth" 500 (by decide) (by decide)).trans (by decide)
  · exact (spec_C8_default_px "opacity" 2 (by decide) (by decide)).trans (by decide)

/-- C1 counterexample: the claim includes the table entry `KHz ↦ kHz`, but a
key ending in `"KHz"` is consumed by the earlier `Hz ↦ Hz` entry, yielding
`"5Hz"` (with the stripped core `"fK"`), not `"5kHz"`; and the claimed
equation `resolve(key + S, v) = String(v) + U` also fails at `v = 0`, where
the zero rule wins and no unit is appended. -/
theorem spec_C1_counterexample :
    (parseProperties "fKHz" (CSSValue.num 5) = ("f-k", "5Hz") ∧ ("5Hz" : String) ≠ "5kHz")
      ∧ ((parseProperties "widthPercent" (CSSValue.num 0)).snd = "0"
          ∧ ("0" : String) ≠ "0%") := by
  exact ⟨⟨by decide, by decide⟩, ⟨by decide, by decide⟩⟩

/-- C1 (amended): for every operator suffix `S ↦ U` in the table other than
`"KHz"` (whose keys are consumed by the earlier `"Hz"` entry), and every
nonzero numeric value, resolving `key + S` strips `S` before name
normalization and yields `String(v) + U`; the scan is first-match in table
order, so at most one operator consumes the key. -/
theorem spec_C1_operator_units (S U key : String) (v : Int)
    (hmem : (S, U) ∈ OPERATORS) (hS : S ≠ "KHz") (hv : v ≠ 0) :
    parseProperties (key ++ S) (CSSValue.num v) = (camelToKebab key, toString v ++ U) := by
  have hfo : findOp (key ++ S) = some (S, U) := findOp_append S U key hmem hS
  have hU : U ≠ "" := ops_unit_nonempty (S, U) hmem
  have h1 : propKeyOf (key ++ S) = camelToKebab key := by
    rw [propKeyOf, corePart, hfo]
    show camelToKebab (dropEnd (key ++ S) S.length) = camelToKebab key
    rw [dropEnd_append]
  have h2 : parseValue (key ++ S) (CSSValue.num v) = toString v ++ U := by
    have hu : opUnit (key ++ S) = U := by rw [opUnit, hfo]
    rw [parseValue, if_neg hv, applyUnit, hu, if_pos hU]
  rw [parseProperties, h1, h2]

/-- Witness for the amended C1: suffix `Deg` on 45 gives `"45deg"` with the
suffix stripped from the key. -/
theorem spec_C1_operator_units_witness :
    ("Deg", "deg") ∈ OPERATORS ∧ ("Deg" : String) ≠ "KHz" ∧ (45 : Int) ≠ 0 ∧
      parseProperties "rotateDeg" (CSSValue.num 45) = ("rotate", "45deg") := by
  refine ⟨by decide, by decide, by decide, ?_⟩
  have h := spec_C1_operator_units "Deg" "deg" "rotate" 45 (by decide) (by decide) (by decide)
  have he : ("rotate" : String) ++ "Deg" = "rotateDeg" := by decide
  rw [he] at h
  rw [h]
  decide

/-- C2 counterexample: dialect substitution is NOT applied inside keyframes
blocks.  Compiling a config whose keyframes step uses the localized spellings
`colour`/`grey` emits them verbatim: the output contains `"colour: grey;"`
and nowhere contains the standard spellings `"color"`/`"gray"`. -/
theorem spec_C2_counterexample :
    create [("keyframes", CSSValue.obj [("name", CSSValue.str "k"),
        ("from", CSSValue.obj [("colour", CSSValue.str "grey")])])]
      = Except.ok "\n:host \x7b\x7d\n@keyframes k \x7b\n  from \x7b\n    colour: grey;\n  \x7d\n\x7d"
    ∧ ("colour: grey;").data
        <:+: ("\n:host \x7b\x7d\n@keyframes k \x7b\n  from \x7b\n    colour: grey;\n  \x7d\n\x7d").data
    ∧ ¬ ("color").data
        <:+: ("\n:host \x7b\x7d\n@keyframes k \x7b\n  from \x7b\n    colour: grey;\n  \x7d\n\x7d").data
    ∧ ¬ ("gray").data
        <:+: ("\n:host \x7b\x7d\n@keyframes k \x7b\n  from \x7b\n    colour: grey;\n  \x7d\n\x7d").data := by
  refine ⟨?_, by decide, by decide, by decide⟩
  rfl

/-- C2 (amended): the dialect map is a whole-string substitution applied to
the final property name and final property value of every declaration emitted
by the base rule and by media blocks (which reuse `compileCSS`), and it fixes
the four localized spellings while leaving every other string unchanged;
keyframes blocks, however, emit their declaration lines raw, with no dialect
substitution. -/
theorem spec_C2_dialect_substitution :
    (americanise "colour" = "color" ∧ americanise "centre" = "center"
      ∧ americanise "grey" = "gray" ∧ americanise "behaviour" = "behavior"
      ∧ ∀ s : String, s ≠ "colour" → s ≠ "centre" → s ≠ "grey" → s ≠ "behaviour" →
          americanise s = s)
    ∧ (∀ (css : Config) (k : String) (v : CSSValue), (k, v) ∈ css →
        isReservedKey k = false → containsStr (compileCSS css) (declLine k v))
    ∧ (∀ (media : Config) (pc pp : Option CSSValue) (out : String),
        compileMedia media pc pp = Except.ok out →
        ∀ (k : String) (v : CSSValue), (k, v) ∈ media → isReservedKey k = false →
          isBpKey k = false → containsStr out (declLine k v))
    ∧ (∀ (config : Config) (out : String), compileKeyframes config = Except.ok out →
        ∀ (st : String) (d : CSSValue), (st, d) ∈ config → st ≠ "name" →
        ∀ (k : String) (v : CSSValue), (k, v) ∈ entriesOf d →
          containsStr out (kfLine k v)) := by
  refine ⟨⟨rfl, rfl, rfl, rfl, ?_⟩, ?_, ?_, ?_⟩
  · intro s h1 h2 h3 h4
    rw [americanise, if_neg h1, if_neg h2, if_neg h3, if_neg h4]
  · intro css k v hmem hres
    exact compileCSS_containsStr css k v hmem hres
  · intro media pc pp out h k v hmem hres hbp
    cases hf : media.find? (fun p => isBpKey p.fst) with
    | none => rw [compileMedia_no_bp media pc pp hf] at h; cases h
    | some bp =>
      rw [compileMedia_ok media pc pp bp hf] at h
      injection h with hout
      rw [← hout]
      have hinner : (k, v) ∈ media.filter (fun p => !isBpKey p.fst) :=
        List.mem_filter.mpr ⟨hmem, by simp [hbp]⟩
      have hbody := compileCSS_containsStr (media.filter (fun p => !isBpKey p.fst)) k v
        hinner hres
      apply containsStr_trans ?_ hbody
      refine ⟨"\n@media (" ++ (parseProperties (dropEnd bp.fst 2) bp.snd).fst ++ ": "
        ++ (parseProperties (dropEnd bp.fst 2) bp.snd).snd ++ ") \x7b\n  "
        ++ ("." ++ displayO (if jsTruthyO (lk media "class") then lk media "class" else pc)
          ++ (if jsTruthyO (if jsTruthyO (lk media "pseudoClass") then lk media "pseudoClass"
                else pp)
              then ":" ++ displayO (if jsTruthyO (lk media "pseudoClass")
                then lk media "pseudoClass" else pp)
              else ""))
        ++ " \x7b\n    ", "\n  \x7d\n\x7d", ?_⟩
      simp only [String.append_assoc]
  · intro config out h st d hmem hst k v hkv
    exact compileKeyframes_containsStr config out h st d hmem hst k v hkv

/-- Witness for the amended C2 at concrete inputs: a `colour: "grey"`
declaration in a base rule is emitted as `color: gray`, and the same
declaration inside a keyframes step is emitted raw. -/
theorem spec_C2_dialect_substitution_witness :
    containsStr (compileCSS [("colour", CSSValue.str "grey")])
        (declLine "colour" (CSSValue.str "grey"))
      ∧ containsStr "@keyframes k \x7b\n  from \x7b\n    colour: grey;\n  \x7d\n\x7d"
          (kfLine "colour" (CSSValue.str "grey")) := by
  constructor
  · exact spec_C2_dialect_substitution.2.1 [("colour", CSSValue.str "grey")]
      "colour" (CSSValue.str "grey") (List.mem_singleton.mpr rfl) (by decide)
  · apply spec_C2_dialect_substitution.2.2.2
      [("name", CSSValue.str "k"), ("from", CSSValue.obj [("colour", CSSValue.str "grey")])]
      _ ?_ "from" (CSSValue.obj [("colour", CSSValue.str "grey")]) ?_ (by decide)
      "colour" (CSSValue.str "grey") ?_
    · rfl
    · simp
    · simp [entriesOf]

/-- C9: reserved keys never appear as property declarations — compiling a
config emits exactly the declarations of its non-reserved entries — and a
media block removes every breakpoint-marked key from the sub-config before
compiling the remainder (whose reserved keys are likewise skipped) as
ordinary declarations. -/
theorem spec_C9_reserved_keys (css : Config) (media : Config) (pc pp : Option CSSValue) :
    compileCSS css = compileCSS (css.filter (fun p => !isReservedKey p.fst))
    ∧ ∀ out, compileMedia media pc pp = Except.ok out →
        ∃ heading selector,
          out = "\n@media (" ++ heading ++ ") \x7b\n  " ++ selector ++ " \x7b\n    "
            ++ compileCSS (media.filter (fun p => !isReservedKey p.fst && !isBpKey p.fst))
            ++ "\n  \x7d\n\x7d" := by
  constructor
  · exact compileCSS_filter_reserved css
  · intro out h
    cases hf : media.find? (fun p => isBpKey p.fst) with
    | none => rw [compileMedia_no_bp media pc pp hf] at h; cases h
    | some bp =>
      rw [compileMedia_ok media pc pp bp hf] at h
      injection h with hout
      refine ⟨(parseProperties (dropEnd bp.fst 2) bp.snd).fst ++ ": "
        ++ (parseProperties (dropEnd bp.fst 2) bp.snd).snd,
        "." ++ displayO (if jsTruthyO (lk media "class") then lk media "class" else pc)
          ++ (if jsTruthyO (if jsTruthyO (lk media "pseudoClass") then lk media "pseudoClass"
                else pp)
              then ":" ++ displayO (if jsTruthyO (lk media "pseudoClass")
                then lk media "pseudoClass" else pp)
              else ""), ?_⟩
      rw [← hout, compileCSS_filter_reserved (media.filter (fun p => !isBpKey p.fst)),
        List.filter_filter]
      simp only [String.append_assoc]

/-- Witness for C9 at a concrete config: the reserved keys contribute no
declaration, and the media body compiles only the non-breakpoint keys. -/
theorem spec_C9_reserved_keys_witness :
    compileCSS [("class", CSSValue.str "c"), ("width", CSSValue.num 5)]
      = compileCSS (([("class", CSSValue.str "c"), ("width", CSSValue.num 5)] : Config).filter
          (fun p => !isReservedKey p.fst))
    ∧ ∃ heading selector,
        "\n@media (max-width: 600px) \x7b\n  .c \x7b\n    \n  padding: 4px;\n  \x7d\n\x7d"
          = "\n@media (" ++ heading ++ ") \x7b\n  " ++ selector ++ " \x7b\n    "
            ++ compileCSS (([("maxWidthBp", CSSValue.num 600), ("padding", CSSValue.num 4)]
                : Config).filter (fun p => !isReservedKey p.fst && !isBpKey p.fst))
            ++ "\n  \x7d\n\x7d" := by
  constructor
  · exact (spec_C9_reserved_keys [("class", CSSValue.str "c"), ("width", CSSValue.num 5)]
      [] none none).1
  · exact (spec_C9_reserved_keys [] [("maxWidthBp", CSSValue.num 600),
      ("padding", CSSValue.num 4)] (some (CSSValue.str "c")) none).2 _ rfl

/-- C3 (code bug): compiling a media sub-config with no resolvable class —
no `class` key of its own and none inherited — does NOT fail with a config
error.  The compile succeeds and renders the JavaScript `undefined` into the
selector, emitting `.undefined` inside the media block. -/
theorem spec_C3_media_without_class :
    create [("media", CSSValue.obj [("maxWidthBp", CSSValue.num 600),
        ("padding", CSSValue.num 4)])]
      = Except.ok "\n:host \x7b\x7d\n\n@media (max-width: 600px) \x7b\n  .undefined \x7b\n    \n  padding: 4px;\n  \x7d\n\x7d"
    ∧ (".undefined").data
        <:+: ("\n:host \x7b\x7d\n\n@media (max-width: 600px) \x7b\n  .undefined \x7b\n    \n  padding: 4px;\n  \x7d\n\x7d").data := by
  exact ⟨rfl, by decide⟩

/-- C4 counterexample: with `class` absent but `pseudoClass` present, the
selector does NOT default to the `:host` scope token — the base rule is
emitted with the selector `.undefined:hover`. -/
theorem spec_C4_counterexample :
    create [("pseudoClass", CSSValue.str "hover"), ("width", CSSValue.num 5)]
      = Except.ok "\n.undefined:hover \x7b\n  width: 5px;\x7d\n"
    ∧ ¬ (":host").data <:+: ("\n.undefined:hover \x7b\n  width: 5px;\x7d\n").data
    ∧ (".undefined:hover").data <:+: ("\n.undefined:hover \x7b\n  width: 5px;\x7d\n").data := by
  exact ⟨rfl, by decide, by decide⟩

/-- C4 (amended): the base selector is `"." + class` with `":" + pseudoClass`
appended when `pseudoClass` is present; when both `class` and `pseudoClass`
are absent the selector defaults to the `:host` scope token; but when `class`
is absent and a truthy `pseudoClass` is present, the selector is
`".undefined:" + pseudoClass` (the `undefined` class is interpolated), not
`:host`.  The final conjunct ties `selectorOf` to the full `create` output. -/
theorem spec_C4_base_selector (css : Config) :
    (∀ c : String, lk css "class" = some (CSSValue.str c) → c ≠ "" →
        (lk css "pseudoClass" = none → selectorOf css = "." ++ c)
        ∧ (∀ p : String, lk css "pseudoClass" = some (CSSValue.str p) → p ≠ "" →
            selectorOf css = "." ++ c ++ ":" ++ p))
    ∧ (lk css "class" = none → lk css "pseudoClass" = none → selectorOf css = ":host")
    ∧ (∀ p : String, lk css "class" = none →
        lk css "pseudoClass" = some (CSSValue.str p) → p ≠ "" →
        selectorOf css = ".undefined:" ++ p)
    ∧ (∀ m k, mediaPart css = Except.ok m → keyframesPart css = Except.ok k →
        create css = Except.ok ("\n" ++ selectorOf css ++ " \x7b" ++ compileCSS css
          ++ "\x7d\n" ++ m ++ k)) := by
  refine ⟨?_, ?_, ?_, ?_⟩
  · intro c hc hcne
    constructor
    · intro hp
      simp [selectorOf, hc, hp, jsTruthyO, jsTruthy, displayO, jsDisplay, hcne]
    · intro p hp hpne
      simp [selectorOf, hc, hp, jsTruthyO, jsTruthy, displayO, jsDisplay, hpne]
  · intro hc hp
    simp [selectorOf, hc, hp, jsTruthyO]
  · intro p hc hp hpne
    simp [selectorOf, hc, hp, jsTruthyO, jsTruthy, displayO, jsDisplay, hpne]
  · intro m k hm hk
    exact create_ok css m k hm hk

/-- Witness for the amended C4 at concrete configs: class only, class plus
pseudo-class, neither, and pseudo-class without class. -/
theorem spec_C4_base_selector_witness :
    selectorOf [("class", CSSValue.str "box")] = ".box"
    ∧ selectorOf [("class", CSSValue.str "btn"), ("pseudoClass", CSSValue.str "hover")]
        = ".btn:hover"
    ∧ selectorOf [] = ":host"
    ∧ selectorOf [("pseudoClass", CSSValue.str "hover")] = ".undefined:hover"
    ∧ create [("class", CSSValue.str "box")]
        = Except.ok ("\n" ++ selectorOf [("class", CSSValue.str "box")] ++ " \x7b"
            ++ compileCSS [("class", CSSValue.str "box")] ++ "\x7d\n" ++ "" ++ "") := by
  refine ⟨?_, ?_, ?_, ?_, ?_⟩
  · have h := (spec_C4_base_selector [("class", CSSValue.str "box")]).1 "box" rfl
      (by decide)
    exact (h.1 rfl).trans (by decide)
  · have h := (spec_C4_base_selector [("class", CSSValue.str "btn"),
      ("pseudoClass", CSSValue.str "hover")]).1 "btn" rfl (by decide)
    exact (h.2 "hover" rfl (by decide)).trans (by decide)
  · exact (spec_C4_base_selector []).2.1 rfl rfl
  · have h := (spec_C4_base_selector [("pseudoClass", CSSValue.str "hover")]).2.2.1 "hover"
      rfl rfl (by decide)
    exact h.trans (by decide)
  · exact (spec_C4_base_selector [("class", CSSValue.str "box")]).2.2.2 "" "" rfl rfl

/-- C5 counterexample: the step key `"From"` is not `"from"`, not `"to"`,
and does not match `^\d+%$`, yet the compile call succeeds (the key is
lowercased and accepted), emitting a `from` block. -/
theorem spec_C5_counterexample :
    create [("keyframes", CSSValue.obj [("name", CSSValue.str "a"),
        ("From", CSSValue.obj [("opacity", CSSValue.num 1)])])]
      = Except.ok "\n:host \x7b\x7d\n@keyframes a \x7b\n  from \x7b\n    opacity: 1;\n  \x7d\n\x7d"
    ∧ ("From" : String) ≠ "from" ∧ ("From" : String) ≠ "to"
    ∧ isPercentKey "From" = false := by
  exact ⟨rfl, by decide, by decide, by decide⟩

/-- C5 (amended): a media sub-config with no breakpoint-marked key fails the
whole compile call with the media config error; a keyframes sub-config with a
missing (falsy) `name` fails it with the name error; and a keyframes step key
whose LOWERCASING is neither `"from"` nor `"to"` and which does not match
`^\d+%$` fails it with the invalid-step error.  In each case `create` returns
only the error — no partial output. -/
theorem spec_C5_malformed_blocks :
    (∀ (css : Config) (m : Config), lk css "media" = some (CSSValue.obj m) →
        m.find? (fun p => isBpKey p.fst) = none →
        create css = Except.error "Media config must include a *Bp key")
    ∧ (∀ (css : Config) (kf : Config) (mo : String), mediaPart css = Except.ok mo →
        lk css "keyframes" = some (CSSValue.obj kf) →
        jsTruthyO (lk kf "name") = false →
        create css = Except.error "Keyframes config must include a name")
    ∧ (∀ (css : Config) (kf : Config) (mo : String) (st : String) (d : CSSValue),
        mediaPart css = Except.ok mo →
        lk css "keyframes" = some (CSSValue.obj kf) →
        jsTruthyO (lk kf "name") = true →
        (st, d) ∈ kf → st ≠ "name" →
        jsToLowerCase st ≠ "from" → jsToLowerCase st ≠ "to" → isPercentKey st = false →
        create css = Except.error invalidStepMsg) := by
  refine ⟨?_, ?_, ?_⟩
  · intro css m hm hf
    apply create_media_error
    rw [mediaPart_obj css m hm]
    exact compileMedia_no_bp m (lk css "class") (lk css "pseudoClass") hf
  · intro css kf mo hmp hkf hname
    apply create_kf_error css mo _ hmp
    rw [keyframesPart_obj css kf hkf]
    exact compileKeyframes_no_name kf hname
  · intro css kf mo st d hmp hkf hname hmem hst h1 h2 h3
    apply create_kf_error css mo _ hmp
    rw [keyframesPart_obj css kf hkf]
    exact compileKeyframes_step_error kf st d hname hmem hst
      (normaliseKeyframe_invalid st h1 h2 h3)

/-- Witness for the amended C5 at concrete inputs: a media block without a
breakpoint key, a keyframes block without a name, and the step key `"50"`
(missing the percent sign) each fail the whole compile call. -/
theorem spec_C5_malformed_blocks_witness :
    create [("media", CSSValue.obj [("padding", CSSValue.num 4)])]
        = Except.error "Media config must include a *Bp key"
    ∧ create [("keyframes", CSSValue.obj [("from",
          CSSValue.obj [("opacity", CSSValue.num 1)])])]
        = Except.error "Keyframes config must include a name"
    ∧ create [("keyframes", CSSValue.obj [("name", CSSValue.str "a"),
          ("50", CSSValue.obj [("opacity", CSSValue.num 1)])])]
        = Except.error invalidStepMsg := by
  refine ⟨?_, ?_, ?_⟩
  · exact spec_C5_malformed_blocks.1 _ [("padding", CSSValue.num 4)] rfl rfl
  · exact spec_C5_malformed_blocks.2.1 _
      [("from", CSSValue.obj [("opacity", CSSValue.num 1)])] "" rfl rfl rfl
  · exact spec_C5_malformed_blocks.2.2 _
      [("name", CSSValue.str "a"), ("50", CSSValue.obj [("opacity", CSSValue.num 1)])] ""
      "50" (CSSValue.obj [("opacity", CSSValue.num 1)]) rfl rfl (by decide)
      (List.mem_cons_of_mem _ (List.mem_cons_self _ _)) (by decide) (by decide) (by decide)
      (by decide)
